import Mathlib

/-!
Verification of the pyqtdeploy dependency-resolution engine.

This file gives a shallow embedding, in Lean 4, of the parts of the
pyqtdeploy source that implement dependency resolution:

* `pyqtdeploy/version_number.py` — partial-precision version comparison;
* `pyqtdeploy/platforms.py` — the platform/architecture registry and
  `Architecture.is_targeted`;
* `pyqtdeploy/parts.py` — part metadata and `Part.applies_to`;
* `pyqtdeploy/sysroot/abstract_component.py` — per-component part
  resolution (`Component.parts`, `_add_part`, `_normalised_part`,
  `_normalised_deps`, `_normalised_values`, `_targeted_value`);
* `pyqtdeploy/builder/builder.py` — `Builder._add_project_part`.

Python strings are Lean `String`, Python ints are Lean `Int` (or `Nat`
for fuel), fallible code returns `Except String`, and the recursion of
the resolvers (which in Python terminates only via memo tables) is made
structural with an explicit fuel parameter.  Stateful code is embedded
by explicit state passing; for the frame/no-mutation claim an explicit
heap of `Part` values is used so that the Python object mutations are
visible as heap writes.
-/

namespace Pyqtdeploy

/-! ### Python string primitives

The Python code uses `str.split(sep, maxsplit=1)`, `str.split(sep)`,
`in`, `startswith` and slicing.  They are embedded on `List Char` so
that everything reduces in the kernel. -/

/-- Split a character list at the first occurrence of `c`; `none` when
`c` does not occur (Python `s.split(c, maxsplit=1)` yielding one part). -/
def splitFirstAux (c : Char) : List Char → Option (List Char × List Char)
  | [] => none
  | x :: xs =>
      if x = c then some ([], xs)
      else match splitFirstAux c xs with
        | none => none
        | some (a, b) => some (x :: a, b)

/-- Python `s.split(c, maxsplit=1)`: the pair of the part before the
first `c` and the rest, or `none` when `c` does not occur in `s`. -/
def splitFirst (s : String) (c : Char) : Option (String × String) :=
  match splitFirstAux c s.toList with
  | none => none
  | some (a, b) => some (String.mk a, String.mk b)

/-- Helper for `pySplit`: accumulate the current field (reversed). -/
def pySplitAux (c : Char) : List Char → List Char → List (List Char)
  | [], acc => [acc.reverse]
  | x :: xs, acc =>
      if x = c then acc.reverse :: pySplitAux c xs []
      else pySplitAux c xs (x :: acc)

/-- Python `s.split(c)` (no maxsplit): always at least one field. -/
def pySplit (s : String) (c : Char) : List String :=
  (pySplitAux c s.toList []).map String.mk

/-- Python `c in s` for a single character. -/
def pyContainsChar (s : String) (c : Char) : Bool :=
  s.toList.contains c

/-- Python `s.startswith(c)` for a single-character head test. -/
def pyStartsWith (s : String) (c : Char) : Bool :=
  match s.toList with
  | [] => false
  | x :: _ => x = c

/-- Python `s[1:]`. -/
def pyDrop1 (s : String) : String :=
  String.mk s.toList.tail

/-! ### platforms.py — the platform/architecture registry

Module level code in `platforms.py` registers, in order:
Android (android-32, android-64), iOS (ios-64), Linux (linux-32,
linux-64), macOS (macos-64) and Windows (win-32, win-64).  Each
platform and architecture is a singleton, so Python `is` comparisons
coincide with name equality. -/

/-- An architecture: its name and the name of the platform it belongs
to (`Architecture.__init__` stores `name` and `platform`). -/
structure Architecture where
  name : String
  platformName : String
deriving DecidableEq, Repr

/-- The names of the registered platforms, in registration order
(`Platform.all_platforms`). -/
def allPlatformNames : List String :=
  ["android", "ios", "linux", "macos", "win"]

/-- The registered architectures, in registration order
(`Architecture.all_architectures`). -/
def allArchitectures : List Architecture :=
  [⟨"android-32", "android"⟩, ⟨"android-64", "android"⟩,
   ⟨"ios-64", "ios"⟩,
   ⟨"linux-32", "linux"⟩, ⟨"linux-64", "linux"⟩,
   ⟨"macos-64", "macos"⟩,
   ⟨"win-32", "win"⟩, ⟨"win-64", "win"⟩]

/-- `Platform.platform(name)`: the singleton platform with that name
(identified here by the name itself); a `UserException` for an
unsupported name. -/
def platformPlatform (name : String) : Except String String :=
  if allPlatformNames.contains name then .ok name
  else .error ("'" ++ name ++ "' is not a supported platform")

/-- `Architecture.architecture(name)` for a non-`None` name: scan the
registered architectures; an architecture matches when its own name or
its platform's name equals `name`; a `UserException` otherwise. -/
def architectureArchitecture (name : String) : Except String Architecture :=
  match allArchitectures.find? (fun a => a.name == name || a.platformName == name) with
  | some a => .ok a
  | none => .error ("'" ++ name ++ "' is not a supported architecture")

/-- The `targets` argument of `Architecture.is_targeted`: Python
passes `None`/`''` (falsy), a string, or a sequence of names. -/
inductive Targets where
  | noTargets
  | str (s : String)
  | seq (l : List String)
deriving DecidableEq, Repr

/-- Python truthiness test on the `targets` argument. -/
def targetsFalsy : Targets → Bool
  | .noTargets => true
  | .str s => s == ""
  | .seq l => l.isEmpty

/-- `Architecture.is_targeted(targets)`, translated line by line.  A
falsy argument covers; a string containing `|` becomes a list; a
remaining string is `!platform`, an architecture name containing `-`,
or a platform name (unknown names raise); a list covers iff the
architecture's platform name is a member. -/
def isTargeted (self : Architecture) (targets : Targets) : Except String Bool :=
  if targetsFalsy targets then .ok true
  else
    let targets := match targets with
      | .str s =>
          let ts := pySplit s '|'
          if ts.length == 1 then Targets.str s else Targets.seq ts
      | t => t
    match targets with
    | .noTargets => .ok true
    | .str s =>
        if pyStartsWith s '!' then do
          let p ← platformPlatform (pyDrop1 s)
          .ok (self.platformName != p)
        else if pyContainsChar s '-' then do
          let a ← architectureArchitecture s
          .ok (self == a)
        else do
          let p ← platformPlatform s
          .ok (self.platformName == p)
    | .seq l => .ok (l.contains self.platformName)

/-! ### version_number.py — partial-precision version comparison -/

/-- A parsed version number (`VersionNumber.__init__`): integer major,
minor and patch components and a string suffix. -/
structure VersionNumber where
  major : Int
  minor : Int := 0
  patch : Int := 0
  suffix : String := ""
deriving DecidableEq, Repr

/-- The 4-tuple produced by `VersionNumber._resolve_other` from a
supported right-hand side: the precision of the comparison is encoded
by which trailing components are `None`. -/
structure ResolvedOther where
  major : Int
  minor : Option Int
  patch : Option Int
  suffix : Option String
deriving DecidableEq, Repr

/-- A right-hand-side comparison tuple of 1 to 4 elements (the first
three are integers, the fourth a suffix string). -/
inductive CmpTuple where
  | t1 (major : Int)
  | t2 (major minor : Int)
  | t3 (major minor patch : Int)
  | t4 (major minor patch : Int) (sfx : String)
deriving DecidableEq, Repr

/-- A supported right-hand side of a comparison operator: a plain
integer (major only), a `VersionNumber`, or a tuple. -/
inductive VersionSpec where
  | int (major : Int)
  | vn (v : VersionNumber)
  | tup (t : CmpTuple)
deriving DecidableEq, Repr

/-- `VersionNumber._resolve_other` on a supported value: the number of
elements of a tuple determines the precision of the comparison. -/
def resolveOther : VersionSpec → ResolvedOther
  | .int m => ⟨m, none, none, none⟩
  | .vn v => ⟨v.major, some v.minor, some v.patch, some v.suffix⟩
  | .tup (.t1 ma) => ⟨ma, none, none, none⟩
  | .tup (.t2 ma mi) => ⟨ma, some mi, none, none⟩
  | .tup (.t3 ma mi pa) => ⟨ma, some mi, some pa, none⟩
  | .tup (.t4 ma mi pa s) => ⟨ma, some mi, some pa, some s⟩

/-- `VersionNumber.__eq__` after `_resolve_other`. -/
def vnEq (v : VersionNumber) (o : ResolvedOther) : Bool :=
  if v.major ≠ o.major then false
  else match o.minor with
  | none => true
  | some minor =>
    if v.minor ≠ minor then false
    else match o.patch with
    | none => true
    | some patch =>
      if v.patch ≠ patch then false
      else match o.suffix with
      | none => true
      | some sfx => v.suffix == sfx

/-- `VersionNumber.__ge__` after `_resolve_other`. -/
def vnGe (v : VersionNumber) (o : ResolvedOther) : Bool :=
  if v.major < o.major then false
  else if v.major > o.major then true
  else match o.minor with
  | none => true
  | some minor =>
    if v.minor < minor then false
    else if v.minor > minor then true
    else match o.patch with
    | none => true
    | some patch =>
      if v.patch < patch then false
      else if v.patch > patch then true
      else match o.suffix with
      | none => true
      | some sfx => decide (sfx ≤ v.suffix)

/-- `VersionNumber.__gt__` after `_resolve_other`. -/
def vnGt (v : VersionNumber) (o : ResolvedOther) : Bool :=
  if v.major > o.major then true
  else match o.minor with
  | none => false
  | some minor =>
    if v.major < o.major then false
    else if v.minor > minor then true
    else match o.patch with
    | none => false
    | some patch =>
      if v.minor < minor then false
      else if v.patch > patch then true
      else match o.suffix with
      | none => false
      | some sfx =>
        if v.patch < patch then false
        else decide (sfx < v.suffix)

/-- `VersionNumber.__le__` after `_resolve_other`. -/
def vnLe (v : VersionNumber) (o : ResolvedOther) : Bool :=
  if v.major > o.major then false
  else if v.major < o.major then true
  else match o.minor with
  | none => true
  | some minor =>
    if v.minor > minor then false
    else if v.minor < minor then true
    else match o.patch with
    | none => true
    | some patch =>
      if v.patch > patch then false
      else if v.patch < patch then true
      else match o.suffix with
      | none => true
      | some sfx => decide (v.suffix ≤ sfx)

/-- `VersionNumber.__lt__` after `_resolve_other`. -/
def vnLt (v : VersionNumber) (o : ResolvedOther) : Bool :=
  if v.major < o.major then true
  else match o.minor with
  | none => false
  | some minor =>
    if v.major > o.major then false
    else if v.minor < minor then true
    else match o.patch with
    | none => false
    | some patch =>
      if v.minor > minor then false
      else if v.patch < patch then true
      else match o.suffix with
      | none => false
      | some sfx =>
        if v.patch > patch then false
        else decide (v.suffix < sfx)

/-! ### parts.py — part metadata -/

/-- The dynamic class of a part; `CompiledPart` covers
`CompiledPart`, `ExtensionModule` and `ComponentLibrary` instances. -/
inductive PartKind where
  | pythonModule
  | pythonPackage
  | compiledPart
  | extensionModule
  | componentLibrary
  | dataFile
deriving DecidableEq, Repr

/-- Python `isinstance(part, CompiledPart)`. -/
def PartKind.isCompiledPart : PartKind → Bool
  | .compiledPart | .extensionModule | .componentLibrary => true
  | _ => false

/-- Python `isinstance(part, ExtensionModule)`. -/
def PartKind.isExtensionModule : PartKind → Bool
  | .extensionModule => true
  | _ => false

/-- The metadata of a part (`Part.__init__` and the extra fields of
`CompiledPart` and `ExtensionModule`).  Sequences are lists; the
version bounds hold the raw value later fed to `_resolve_other`. -/
structure Part where
  kind : PartKind := .pythonModule
  min_version : Option VersionSpec := none
  version : Option VersionSpec := none
  max_version : Option VersionSpec := none
  target : String := ""
  min_android_api : Option Int := none
  internal : Bool := false
  deps : List String := []
  hidden_deps : List String := []
  core : Bool := false
  defines : Option (List String) := none
  libs : Option (List String) := none
  includepath : Option (List String) := none
  source : Option (List String) := none
  name : Option String := none
deriving DecidableEq, Repr

/-- `Part.applies_to(version)`: an exact version wins outright (the
bounds are not looked at); otherwise the version must not lie below
`min_version` nor above `max_version`. -/
def Part.applies_to (p : Part) (v : VersionNumber) : Bool :=
  match p.version with
  | some spec => vnEq v (resolveOther spec)
  | none =>
      match p.min_version with
      | some spec =>
          if vnLt v (resolveOther spec) then false
          else match p.max_version with
            | some mspec => if vnGt v (resolveOther mspec) then false else true
            | none => true
      | none =>
          match p.max_version with
          | some mspec => if vnGt v (resolveOther mspec) then false else true
          | none => true

/-- `Part.is_scoped_name(name)`. -/
def isScopedName (name : String) : Bool :=
  pyContainsChar name ':'

/-- `Part.get_name(component_name, unscoped_name)`. -/
def getName (componentName unscopedName : String) : String :=
  componentName ++ ":" ++ unscopedName

/-! ### abstract_component.py — per-component resolution

`Component.parts` resolves, for the component's version and the
session's target, every name of the component's `provides` table.  The
context of one resolution session is the target architecture and the
other components of the sysroot. -/

/-- A component of the sysroot: its name, resolved version and
`provides` table (unscoped name, declaration-ordered; a single part is
the singleton list, a tuple of variants the full list). -/
structure Component where
  name : String
  version : VersionNumber
  provides : List (String × List Part)
deriving DecidableEq, Repr

/-- One resolution session: the target architecture and the sysroot's
components. -/
structure Sysroot where
  target : Architecture
  components : List Component
deriving DecidableEq, Repr

/-- `Sysroot.get_component(name, required=False)`. -/
def getComponent (sys : Sysroot) (name : String) : Option Component :=
  sys.components.find? (fun c => c.name == name)

/-- The memo table `Component._parts`: scoped name to resolved part,
`none` recording an unavailable part.  Python's insertion-ordered dict
is an association list. -/
abbrev PartsTable := List (String × Option Part)

/-- Python dict assignment `d[k] = v`: replace in place, else append. -/
def dictSet {α : Type} : List (String × α) → String → α → List (String × α)
  | [], k, v => [(k, v)]
  | (k', v') :: rest, k, v =>
      if k' == k then (k', v) :: rest else (k', v') :: dictSet rest k v

/-- `Component._targeted_value(value)`: a `target#value` gate resolves
to the value when the target is covered and to `None` otherwise. -/
def targetedValue (target : Architecture) (value : String) : Except String (Option String) :=
  match splitFirst value '#' with
  | none => .ok (some value)
  | some (tgt, rest) => do
      let covered ← isTargeted target (.str tgt)
      .ok (if covered then some rest else none)

/-- `Component._normalised_deps(deps)`: scope each dependency by the
providing component (the component itself when unscoped) and drop any
dependency whose `target#` gate excludes the current target. -/
def normalisedDeps (selfName : String) (target : Architecture) :
    List String → Except String (List String)
  | [] => .ok []
  | dep :: rest => do
      let (componentName, dep) :=
        match splitFirst dep ':' with
        | some (c, d) => (c, d)
        | none => (selfName, dep)
      let tv ← targetedValue target dep
      let tl ← normalisedDeps selfName target rest
      match tv with
      | some d => .ok (getName componentName d :: tl)
      | none => .ok tl

/-- `Component._normalised_values(values)`: resolve every `target#`
gate, dropping excluded entries; an emptied list becomes `None`. -/
def normalisedValues (target : Architecture) :
    Option (List String) → Except String (Option (List String))
  | none => .ok none
  | some values => do
      let resolved ← go values
      .ok (if resolved.isEmpty then none else some resolved)
where
  /-- Resolve the gates of each value in order. -/
  go : List String → Except String (List String)
    | [] => .ok []
    | v :: rest => do
        let tv ← targetedValue target v
        let tl ← go rest
        match tv with
        | some v' => .ok (v' :: tl)
        | none => .ok tl

/-- The body of `Component._normalised_part` run on the selected
variant after the deep copy: assign the scoped name, normalise the
dependency lists, and resolve the target-gated value lists of compiled
parts and extension modules. -/
def normalisePartValue (selfName : String) (target : Architecture)
    (unscopedName : String) (part : Part) : Except String Part := do
  let part := { part with name := some (getName selfName unscopedName) }
  let deps ← normalisedDeps selfName target part.deps
  let hdeps ← normalisedDeps selfName target part.hidden_deps
  let part := { part with deps := deps, hidden_deps := hdeps }
  let part ←
    if part.kind.isCompiledPart then do
      let defines ← normalisedValues target part.defines
      let includepath ← normalisedValues target part.includepath
      let libs ← normalisedValues target part.libs
      pure { part with defines := defines, includepath := includepath, libs := libs }
    else pure part
  let part ←
    if part.kind.isExtensionModule then do
      let source ← normalisedValues target part.source
      pure { part with source := source }
    else pure part
  .ok part

/-- `Component._normalised_part(unscoped_name, versions)`: take the
first variant whose version range accepts the component's version; a
variant for another target makes the part unavailable without trying
later variants; otherwise deep-copy and normalise it. -/
def normalisedPart (selfName : String) (version : VersionNumber)
    (target : Architecture) (unscopedName : String) :
    List Part → Except String (Option Part)
  | [] => .ok none
  | part :: rest =>
      if part.applies_to version then
        if part.target != "" then do
          let covered ← isTargeted target (.str part.target)
          if covered then do
            let p ← normalisePartValue selfName target unscopedName part
            .ok (some p)
          else .ok none
        else do
          let p ← normalisePartValue selfName target unscopedName part
          .ok (some p)
      else normalisedPart selfName version target unscopedName rest

/-- The loop of `Component.parts` that builds the `provides` dict of
theoretically provided parts (unavailable variants dropped), in
insertion order. -/
def buildProvidesAux (selfName : String) (version : VersionNumber)
    (target : Architecture) (acc : List (String × Part)) :
    List (String × List Part) → Except String (List (String × Part))
  | [] => .ok acc
  | (unscopedName, versions) :: rest => do
      let p ← normalisedPart selfName version target unscopedName versions
      match p with
      | some part =>
          match part.name with
          | some nm =>
              buildProvidesAux selfName version target (dictSet acc nm part) rest
          | none => .error "unnamed part"
      | none => buildProvidesAux selfName version target acc rest

/-- The `provides` dict of `Component.parts`, keyed by scoped name. -/
def buildProvides (selfName : String) (version : VersionNumber)
    (target : Architecture) (entries : List (String × List Part)) :
    Except String (List (String × Part)) :=
  buildProvidesAux selfName version target [] entries

/-! ### abstract_component.py — `Component.parts` and `_add_part`

In Python the recursion of `_add_part` terminates through the memo
table `self._parts` and a cross-component call of `component.parts`
recomputes (or fetches the memo of) that component's table.  Here the
recursion carries an explicit fuel; every recursive call decreases it,
and exhausted fuel is a distinguished error that never occurs in the
concrete sessions below. -/

mutual

/-- `Component.parts`: build the `provides` dict of theoretically
provided parts, run `_add_part` on each entry (in insertion order) and
drop the entries recorded as unavailable. -/
def componentParts (sys : Sysroot) : Nat → Component → Except String (List (String × Part))
  | 0, _ => .error "recursion limit"
  | fuel+1, c => do
      let provides ← buildProvides c.name c.version sys.target c.provides
      let openssl := (getComponent sys "OpenSSL").isSome
      let tbl ← addParts sys fuel c.name openssl provides provides []
      .ok (tbl.filterMap (fun e => e.2.map (fun p => (e.1, p))))
termination_by structural fuel => fuel

/-- The loop of `Component.parts` that calls `_add_part` for every
entry of the `provides` dict in order. -/
def addParts (sys : Sysroot) : Nat → String → Bool → List (String × Part) →
    List (String × Part) → PartsTable → Except String PartsTable
  | 0, _, _, _, _, _ => .error "recursion limit"
  | fuel+1, selfName, openssl, provides, entries, tbl =>
      match entries with
      | [] => .ok tbl
      | (name, part) :: rest => do
          let tbl ← addPart sys fuel selfName openssl provides tbl name part
          addParts sys fuel selfName openssl provides rest tbl
termination_by structural fuel => fuel

/-- `Component._add_part(name, part, openssl, provides)`: return at
once when the name is memoized; otherwise write the provisional part
into the memo table before visiting the dependencies, and finally
overwrite the entry with the surviving part (its dependency list
updated to the satisfied ones) or with `None`. -/
def addPart (sys : Sysroot) : Nat → String → Bool → List (String × Part) →
    PartsTable → String → Part → Except String PartsTable
  | 0, _, _, _, _, _, _ => .error "recursion limit"
  | fuel+1, selfName, openssl, provides, tbl, name, part =>
      if (tbl.lookup name).isSome then .ok tbl
      else do
        let tbl := dictSet tbl name (some part)
        let (updatedDeps, alive, tbl) ←
          depsLoop sys fuel selfName openssl provides tbl part.deps [] true
        .ok (dictSet tbl name
              (if alive then some { part with deps := updatedDeps } else none))
termination_by structural fuel => fuel

/-- The dependency loop of `Component._add_part`.  `alive` is the
Python condition `part is not None`: a missing required same-component
dependency breaks out of the loop, while a missing required
cross-component dependency only clears `alive` and the loop continues.
Optional (`?`) dependencies never clear `alive`; `!` dependencies are
skipped entirely when the OpenSSL component is present. -/
def depsLoop (sys : Sysroot) : Nat → String → Bool → List (String × Part) →
    PartsTable → List String → List String → Bool →
    Except String (List String × Bool × PartsTable)
  | 0, _, _, _, _, _, _, _ => .error "recursion limit"
  | fuel+1, selfName, openssl, provides, tbl, deps, updatedDeps, alive =>
      match deps with
      | [] => .ok (updatedDeps, alive, tbl)
      | depName0 :: rest =>
          match splitFirst depName0 ':' with
          | none => .error "unscoped dependency name"
          | some (componentName, partName) =>
              if pyStartsWith partName '?' then
                -- optional: availability has no impact
                let depName := getName componentName (pyDrop1 partName)
                depStep sys fuel selfName openssl provides tbl rest updatedDeps alive
                  componentName depName false
              else if pyStartsWith partName '!' then
                -- only needed when OpenSSL is unavailable
                if openssl then
                  depsLoop sys fuel selfName openssl provides tbl rest updatedDeps alive
                else
                  let depName := getName componentName (pyDrop1 partName)
                  depStep sys fuel selfName openssl provides tbl rest updatedDeps alive
                    componentName depName true
              else
                depStep sys fuel selfName openssl provides tbl rest updatedDeps alive
                  componentName depName0 true
termination_by structural fuel => fuel

/-- One iteration of the dependency loop body after marker handling:
the same-component case recurses into `_add_part` (a required failure
breaks), the cross-component case consults the other component's
`parts` (a required failure clears `alive` without breaking). -/
def depStep (sys : Sysroot) : Nat → String → Bool → List (String × Part) →
    PartsTable → List String → List String → Bool →
    String → String → Bool →
    Except String (List String × Bool × PartsTable)
  | 0, _, _, _, _, _, _, _, _, _, _ => .error "recursion limit"
  | fuel+1, selfName, openssl, provides, tbl, rest, updatedDeps, alive,
      componentName, depName, required =>
      if selfName == componentName then
        match provides.lookup depName with
        | none =>
            if required then .ok (updatedDeps, false, tbl)
            else depsLoop sys fuel selfName openssl provides tbl rest updatedDeps alive
        | some depPart => do
            let tbl ← addPart sys fuel selfName openssl provides tbl depName depPart
            match tbl.lookup depName with
            | some none =>
                if required then .ok (updatedDeps, false, tbl)
                else depsLoop sys fuel selfName openssl provides tbl rest updatedDeps alive
            | some (some _) =>
                depsLoop sys fuel selfName openssl provides tbl rest
                  (updatedDeps ++ [depName]) alive
            | none => .error "KeyError"
      else
        match getComponent sys componentName with
        | none =>
            depsLoop sys fuel selfName openssl provides tbl rest updatedDeps
              (if required then false else alive)
        | some comp => do
            let cparts ← componentParts sys fuel comp
            if (cparts.lookup depName).isSome then
              depsLoop sys fuel selfName openssl provides tbl rest
                (updatedDeps ++ [depName]) alive
            else
              depsLoop sys fuel selfName openssl provides tbl rest updatedDeps
                (if required then false else alive)
termination_by structural fuel => fuel

end

/-! ### builder.py — `Builder._add_project_part`

`Builder.build` collects the resolved parts of every sysroot component
into `available_parts` and then calls `_add_project_part` for the core
and project part names.  The builder context carries what the method
reads from `self`: the sysroot's components (with their resolved parts
tables), the merged `available_parts` dict, and the target. -/

/-- What `Builder._add_project_part` reads from `self`. -/
structure BuilderCtx where
  /-- `self._sysroot.components`, each with its resolved `parts`. -/
  components : List (String × List (String × Part))
  /-- The merged `available_parts` dict built in `Builder.build`. -/
  availableParts : List (String × Part)
  /-- `self._target.platform.name`. -/
  targetPlatformName : String
  /-- `self._target.platform.android_api` (only read for Android). -/
  androidApi : Int
deriving Repr

/-- Python `'.'.join(parts)`. -/
def joinDots : List String → String
  | [] => ""
  | [s] => s
  | s :: rest => s ++ "." ++ joinDots rest

/-- The parent-part step of `Builder._add_project_part` for a dotted
name: `none` means the name is ignored (no component provides the
parent), `some parentName` that the parent must be added first. -/
def parentRequest (ctx : BuilderCtx) (partName : String) :
    Except String (Option String) := do
  let unscopedName ←
    match splitFirst partName ':' with
    | some (_, u) => .ok u
    | none => .error "IndexError: unscoped part name"
  let unscopedParentName := joinDots (pySplit unscopedName '.').dropLast
  match ctx.components.find?
      (fun c => ((c.2.lookup (getName c.1 unscopedParentName))).isSome) with
  | some c => .ok (some (getName c.1 unscopedParentName))
  | none => .ok none

mutual

/-- `Builder._add_project_part(part_name, parts, available_parts)` run
on a worklist of names: a memoized name is skipped; a dotted name first
adds its parent (or is ignored when no component provides the parent);
a name the sysroot does not provide, or an Android part below the
targeted API level, is skipped; otherwise the part is added and the
names of its `deps` and then of its `hidden_deps` are processed the
same way. -/
def addProjectParts (ctx : BuilderCtx) :
    Nat → List String → List (String × Part) → Except String (List (String × Part))
  | 0, _, _ => .error "recursion limit"
  | _+1, [], parts => .ok parts
  | fuel+1, partName :: rest, parts =>
      if (parts.lookup partName).isSome then addProjectParts ctx fuel rest parts
      else if pyContainsChar partName '.' then do
        match (← parentRequest ctx partName) with
        | none =>
            -- ignore parts whose parent is not provided
            addProjectParts ctx fuel rest parts
        | some parentName => do
            let parts ← addProjectParts ctx fuel [parentName] parts
            addProjectPartBody ctx fuel partName rest parts
      else addProjectPartBody ctx fuel partName rest parts
termination_by structural fuel => fuel

/-- The tail of `Builder._add_project_part` after the parent step:
skip names the sysroot does not provide and Android parts below the
targeted API level; otherwise add the part and process its `deps` and
`hidden_deps`, then the remaining worklist. -/
def addProjectPartBody (ctx : BuilderCtx) :
    Nat → String → List String → List (String × Part) →
    Except String (List (String × Part))
  | 0, _, _, _ => .error "recursion limit"
  | fuel+1, partName, rest, parts =>
      match ctx.availableParts.lookup partName with
      | none => addProjectParts ctx fuel rest parts
      | some part =>
          if ctx.targetPlatformName == "android" &&
              (match part.min_android_api with
               | some api => api > ctx.androidApi
               | none => false) then
            addProjectParts ctx fuel rest parts
          else do
            let parts := dictSet parts partName part
            let parts ← addProjectParts ctx fuel part.deps parts
            let parts ← addProjectParts ctx fuel part.hidden_deps parts
            addProjectParts ctx fuel rest parts
termination_by structural fuel => fuel

end

/-! ### The heap model of Component.parts

The no-mutation claim is about Python object identity, so the same
resolution is embedded once more with an explicit heap of `Part`
objects.  The declarative templates occupy the initial segment of the
heap; `copy.deepcopy` is an allocation at the end of the heap; the
attribute assignments of `_normalised_part` (on the fresh copy) and
the single `part.deps = updated_deps` assignment of `_add_part` (on a
resolved copy) are heap writes.  Cross-component lookups only consult
the other component's resolved part names (each component owns its own
templates and heap), and consecutive attribute assignments on the same
fresh object are combined into one write — nothing reads between them. -/

/-- A heap of Python `Part` objects, addressed by position. -/
abbrev Heap := List Part

/-- Read a heap address. -/
def hGet (h : Heap) (i : Nat) : Except String Part :=
  match h.get? i with
  | some p => .ok p
  | none => .error "invalid heap address"

/-- Write a heap address. -/
def hSet (h : Heap) (i : Nat) (p : Part) : Heap := h.set i p

/-- A component whose `provides` table holds heap addresses of its
declarative templates. -/
structure HComponent where
  name : String
  version : VersionNumber
  provides : List (String × List Nat)

/-- The session context of the heap model: the target, whether the
OpenSSL component is present, and the available part names of each
other component. -/
structure HCtx where
  target : Architecture
  opensslPresent : Bool
  othersParts : List (String × List String)

/-- `Component._normalised_part` in the heap model: find the first
variant whose version range accepts the version (reading templates in
place), check its target, then allocate the deep copy at the end of
the heap and write the normalised attributes to it. -/
def normalisedPartH (ctx : HCtx) (selfName : String) (version : VersionNumber)
    (unscopedName : String) (h : Heap) :
    List Nat → Except String (Heap × Option Nat)
  | [] => .ok (h, none)
  | addr :: rest => do
      let part ← hGet h addr
      if part.applies_to version then
        if part.target != "" then do
          let covered ← isTargeted ctx.target (.str part.target)
          if covered then do
            let v ← normalisePartValue selfName ctx.target unscopedName part
            .ok (hSet (h ++ [part]) h.length v, some h.length)
          else .ok (h, none)
        else do
          let v ← normalisePartValue selfName ctx.target unscopedName part
          .ok (hSet (h ++ [part]) h.length v, some h.length)
      else normalisedPartH ctx selfName version unscopedName h rest

/-- The `provides`-building loop of `Component.parts` in the heap
model: the dict maps scoped names to the addresses of the fresh
normalised copies. -/
def buildProvidesH (ctx : HCtx) (selfName : String) (version : VersionNumber) :
    Heap → List (String × Nat) → List (String × List Nat) →
    Except String (Heap × List (String × Nat))
  | h, acc, [] => .ok (h, acc)
  | h, acc, (unscopedName, addrs) :: rest => do
      let (h, r) ← normalisedPartH ctx selfName version unscopedName h addrs
      match r with
      | some ca => do
          let p ← hGet h ca
          match p.name with
          | some nm => buildProvidesH ctx selfName version h (dictSet acc nm ca) rest
          | none => .error "unnamed part"
      | none => buildProvidesH ctx selfName version h acc rest

/-- The memo table of the heap model: scoped name to resolved object
address, `none` recording an unavailable part. -/
abbrev HTable := List (String × Option Nat)

mutual

/-- `Component._add_part` in the heap model: the provisional address
is memoized before the dependencies are visited; afterwards the one
object mutation `part.deps = updated_deps` is a heap write at the
resolved copy's address (never at a template address). -/
def addPartH (ctx : HCtx) (selfName : String) (provides : List (String × Nat)) :
    Nat → Heap → HTable → String → Nat → Except String (Heap × HTable)
  | 0, _, _, _, _ => .error "recursion limit"
  | fuel+1, h, tbl, name, addr =>
      if (tbl.lookup name).isSome then .ok (h, tbl)
      else do
        let tbl := dictSet tbl name (some addr)
        let part ← hGet h addr
        let (updatedDeps, alive, h, tbl) ←
          depsLoopH ctx selfName provides fuel h tbl part.deps [] true
        if alive then do
          let part ← hGet h addr
          let h := hSet h addr { part with deps := updatedDeps }
          .ok (h, dictSet tbl name (some addr))
        else .ok (h, dictSet tbl name none)
termination_by structural fuel => fuel

/-- The dependency loop of `_add_part` in the heap model (same control
flow as `depsLoop`). -/
def depsLoopH (ctx : HCtx) (selfName : String) (provides : List (String × Nat)) :
    Nat → Heap → HTable → List String → List String → Bool →
    Except String (List String × Bool × Heap × HTable)
  | 0, _, _, _, _, _ => .error "recursion limit"
  | fuel+1, h, tbl, deps, updatedDeps, alive =>
      match deps with
      | [] => .ok (updatedDeps, alive, h, tbl)
      | depName0 :: rest =>
          match splitFirst depName0 ':' with
          | none => .error "unscoped dependency name"
          | some (componentName, partName) =>
              if pyStartsWith partName '?' then
                depStepH ctx selfName provides fuel h tbl rest updatedDeps alive
                  componentName (getName componentName (pyDrop1 partName)) false
              else if pyStartsWith partName '!' then
                if ctx.opensslPresent then
                  depsLoopH ctx selfName provides fuel h tbl rest updatedDeps alive
                else
                  depStepH ctx selfName provides fuel h tbl rest updatedDeps alive
                    componentName (getName componentName (pyDrop1 partName)) true
              else
                depStepH ctx selfName provides fuel h tbl rest updatedDeps alive
                  componentName depName0 true
termination_by structural fuel => fuel

/-- One marker-resolved dependency of the heap model's loop. -/
def depStepH (ctx : HCtx) (selfName : String) (provides : List (String × Nat)) :
    Nat → Heap → HTable → List String → List String → Bool →
    String → String → Bool →
    Except String (List String × Bool × Heap × HTable)
  | 0, _, _, _, _, _, _, _, _ => .error "recursion limit"
  | fuel+1, h, tbl, rest, updatedDeps, alive, componentName, depName, required =>
      if selfName == componentName then
        match provides.lookup depName with
        | none =>
            if required then .ok (updatedDeps, false, h, tbl)
            else depsLoopH ctx selfName provides fuel h tbl rest updatedDeps alive
        | some depAddr => do
            let (h, tbl) ← addPartH ctx selfName provides fuel h tbl depName depAddr
            match tbl.lookup depName with
            | some none =>
                if required then .ok (updatedDeps, false, h, tbl)
                else depsLoopH ctx selfName provides fuel h tbl rest updatedDeps alive
            | some (some _) =>
                depsLoopH ctx selfName provides fuel h tbl rest
                  (updatedDeps ++ [depName]) alive
            | none => .error "KeyError"
      else
        match ctx.othersParts.lookup componentName with
        | none =>
            depsLoopH ctx selfName provides fuel h tbl rest updatedDeps
              (if required then false else alive)
        | some names =>
            if names.contains depName then
              depsLoopH ctx selfName provides fuel h tbl rest
                (updatedDeps ++ [depName]) alive
            else
              depsLoopH ctx selfName provides fuel h tbl rest updatedDeps
                (if required then false else alive)
termination_by structural fuel => fuel

/-- The loop of `Component.parts` over the `provides` entries in the
heap model. -/
def addPartsH (ctx : HCtx) (selfName : String) (provides : List (String × Nat)) :
    Nat → Heap → HTable → List (String × Nat) → Except String (Heap × HTable)
  | 0, _, _, _ => .error "recursion limit"
  | _+1, h, tbl, [] => .ok (h, tbl)
  | fuel+1, h, tbl, (name, addr) :: rest => do
      let (h, tbl) ← addPartH ctx selfName provides fuel h tbl name addr
      addPartsH ctx selfName provides fuel h tbl rest
termination_by structural fuel => fuel

end

/-- `Component.parts` in the heap model: returns the final heap and
the resolved table (unavailable entries dropped), each name mapped to
the address of its resolved copy. -/
def partsH (ctx : HCtx) (c : HComponent) (fuel : Nat) (h : Heap) :
    Except String (Heap × List (String × Nat)) := do
  let (h, provides) ← buildProvidesH ctx c.name c.version h [] c.provides
  let (h, tbl) ← addPartsH ctx c.name provides fuel h [] provides
  .ok (h, tbl.filterMap (fun e => e.2.map (fun a => (e.1, a))))

/-- Frame predicate of the heap model: `h2` is at least as long as
`h` and agrees with it on the first `n` cells. -/
def HeapExt (n : Nat) (h h2 : Heap) : Prop :=
  h.length ≤ h2.length ∧ ∀ i, i < n → h2.get? i = h.get? i

/-- Every resolved address recorded in a memo table lies at or beyond
`n` (the end of the template region). -/
def TblOk (n : Nat) (tbl : HTable) : Prop :=
  ∀ e ∈ tbl, ∀ a, e.2 = some a → n ≤ a

/-- Every address of a `provides` dict lies at or beyond `n`. -/
def ProvOk (n : Nat) (prov : List (String × Nat)) : Prop :=
  ∀ e ∈ prov, n ≤ e.2

/-! ### Concrete resolution sessions

The sessions used by the scenario claims.  Versions with unspecified
components default to 0 as in `VersionNumber.__init__`. -/

/-- The linux-64 target architecture. -/
def linux64 : Architecture := ⟨"linux-64", "linux"⟩

/-- The win-64 target architecture. -/
def win64 : Architecture := ⟨"win-64", "win"⟩

/-- Provider B's part `partY`, supplied only for target `linux`. -/
def partY : Part := { target := "linux" }

/-- Provider B: supplies `partY` only for target `linux` and does not
supply `partZ` at all. -/
def compB : Component := ⟨"B", { major := 1 }, [("partY", [partY])]⟩

/-- Provider A's part `partX`: a required dependency on `B:partY` and
an optional one on `B:partZ` (the optional marker is written after the
component scope, which is where `_add_part` looks for it). -/
def partX : Part := { deps := ["B:partY", "B:?partZ"] }

/-- Provider A for the amended C1 session. -/
def compA : Component := ⟨"A", { major := 1 }, [("partX", [partX])]⟩

/-- The C1 session resolving for target win-64. -/
def sysWin : Sysroot := ⟨win64, [compA, compB]⟩

/-- The C1 session resolving for target linux-64. -/
def sysLinux : Sysroot := ⟨linux64, [compA, compB]⟩

/-- Provider A's `partX` with the optional dependency written
literally as in the spec's dependency grammar, marker before the
component scope: `?B:partZ`. -/
def partXLit : Part := { deps := ["B:partY", "?B:partZ"] }

/-- Provider A with the literal spec encoding of the optional marker. -/
def compALit : Component := ⟨"A", { major := 1 }, [("partX", [partXLit])]⟩

/-- The C1-as-stated session at target linux-64. -/
def sysLinuxLit : Sysroot := ⟨linux64, [compALit, compB]⟩

/-- Cycle part a: requires the same component's b. -/
def partCycA : Part := { deps := ["b"] }

/-- Cycle part b: requires the same component's a. -/
def partCycB : Part := { deps := ["a"] }

/-- The C4 component with the mutual cycle a ↔ b. -/
def compCyc : Component :=
  ⟨"C", { major := 1 }, [("a", [partCycA]), ("b", [partCycB])]⟩

/-- The C4 session. -/
def sysCyc : Sysroot := ⟨linux64, [compCyc]⟩

/-- Variant accepting versions at most 5 (marked with `core := true`
to tell the two variants apart). -/
def varA : Part := { max_version := some (.int 5), core := true }

/-- Variant accepting versions of at least 6. -/
def varB : Part := { min_version := some (.int 6) }

/-- Variant pinned to the exact version 5. -/
def varE1 : Part := { version := some (.int 5) }

/-- Variant pinned to the exact version 6. -/
def varE2 : Part := { version := some (.int 6) }

/-- C6 first variant: accepts every version but only target `win`
(`core := true` to tell the variants apart). -/
def varT1 : Part := { target := "win", core := true }

/-- C6 second variant: accepts every version and target `linux` — it
would match both the version and the linux target. -/
def varT2 : Part := { target := "linux" }

/-- The builder part `P:x` with the hidden dependency `P:big`. -/
def xPart : Part := { hidden_deps := ["P:big"], name := some "P:x" }

/-- The builder part `P:big` with its own declared dependency `P:sub`. -/
def bigPart : Part := { deps := ["P:sub"], name := some "P:big" }

/-- The builder part `P:sub`, reachable only through `P:big`. -/
def subPart : Part := { name := some "P:sub" }

/-- The resolved parts table of the C2 session's single component. -/
def pTable : List (String × Part) :=
  [("P:x", xPart), ("P:big", bigPart), ("P:sub", subPart)]

/-- The C2 builder context: one component `P` on a linux target. -/
def ctxC2 : BuilderCtx :=
  { components := [("P", pTable)], availableParts := pTable,
    targetPlatformName := "linux", androidApi := 0 }

/-- The single template of the C9 witness session, at heap address 0. -/
def tmplPart : Part := { core := true }

/-- The C9 witness component providing `p` from the template at 0. -/
def compH9 : HComponent := ⟨"H", { major := 1 }, [("p", [0])]⟩

/-- The C9 witness session context. -/
def ctxH9 : HCtx := ⟨⟨"linux-64", "linux"⟩, false, []⟩

/-- The resolved copy the C9 witness session allocates at address 1. -/
def resolvedP9 : Part := { tmplPart with name := some "H:p" }

/-! ## Theorems

### Partial-precision comparison (version_number.py) -/

section VnLemmas

variable (v : VersionNumber) (M m p : Int) (s : String)

set_option maxHeartbeats 1600000

lemma vnEq_t1 : vnEq v (resolveOther (.tup (.t1 M))) = true ↔ v.major = M := by
  simp only [vnEq, resolveOther]; split_ifs <;> simp_all

lemma vnLt_t1 : vnLt v (resolveOther (.tup (.t1 M))) = true ↔ v.major < M := by
  simp only [vnLt, resolveOther]; split_ifs <;> simp_all

lemma vnLe_t1 : vnLe v (resolveOther (.tup (.t1 M))) = true ↔ v.major ≤ M := by
  simp only [vnLe, resolveOther]; split_ifs <;> simp_all

lemma vnGt_t1 : vnGt v (resolveOther (.tup (.t1 M))) = true ↔ M < v.major := by
  simp only [vnGt, resolveOther]; split_ifs <;> simp_all

lemma vnGe_t1 : vnGe v (resolveOther (.tup (.t1 M))) = true ↔ M ≤ v.major := by
  simp only [vnGe, resolveOther]; split_ifs <;> simp_all

lemma vnEq_t2 : vnEq v (resolveOther (.tup (.t2 M m))) = true ↔
    v.major = M ∧ v.minor = m := by
  simp only [vnEq, resolveOther]; split_ifs <;> simp_all

lemma vnLt_t2 : vnLt v (resolveOther (.tup (.t2 M m))) = true ↔
    v.major < M ∨ (v.major = M ∧ v.minor < m) := by
  simp only [vnLt, resolveOther]; split_ifs <;> simp_all <;> omega

lemma vnLe_t2 : vnLe v (resolveOther (.tup (.t2 M m))) = true ↔
    v.major < M ∨ (v.major = M ∧ v.minor ≤ m) := by
  simp only [vnLe, resolveOther]; split_ifs <;> simp_all <;> omega

lemma vnGt_t2 : vnGt v (resolveOther (.tup (.t2 M m))) = true ↔
    M < v.major ∨ (v.major = M ∧ m < v.minor) := by
  simp only [vnGt, resolveOther]; split_ifs <;> simp_all <;> omega

lemma vnGe_t2 : vnGe v (resolveOther (.tup (.t2 M m))) = true ↔
    M < v.major ∨ (v.major = M ∧ m ≤ v.minor) := by
  simp only [vnGe, resolveOther]; split_ifs <;> simp_all <;> omega

lemma vnEq_t3 : vnEq v (resolveOther (.tup (.t3 M m p))) = true ↔
    v.major = M ∧ v.minor = m ∧ v.patch = p := by
  simp only [vnEq, resolveOther]; split_ifs <;> simp_all

lemma vnLt_t3 : vnLt v (resolveOther (.tup (.t3 M m p))) = true ↔
    v.major < M ∨ (v.major = M ∧ (v.minor < m ∨ (v.minor = m ∧ v.patch < p))) := by
  simp only [vnLt, resolveOther]; split_ifs <;> simp_all <;> omega

lemma vnLe_t3 : vnLe v (resolveOther (.tup (.t3 M m p))) = true ↔
    v.major < M ∨ (v.major = M ∧ (v.minor < m ∨ (v.minor = m ∧ v.patch ≤ p))) := by
  simp only [vnLe, resolveOther]; split_ifs <;> simp_all <;> omega

lemma vnGt_t3 : vnGt v (resolveOther (.tup (.t3 M m p))) = true ↔
    M < v.major ∨ (v.major = M ∧ (m < v.minor ∨ (v.minor = m ∧ p < v.patch))) := by
  simp only [vnGt, resolveOther]; split_ifs <;> simp_all <;> omega

lemma vnGe_t3 : vnGe v (resolveOther (.tup (.t3 M m p))) = true ↔
    M < v.major ∨ (v.major = M ∧ (m < v.minor ∨ (v.minor = m ∧ p ≤ v.patch))) := by
  simp only [vnGe, resolveOther]; split_ifs <;> simp_all <;> omega

lemma vnEq_t4 : vnEq v (resolveOther (.tup (.t4 M m p s))) = true ↔
    v.major = M ∧ v.minor = m ∧ v.patch = p ∧ v.suffix = s := by
  simp only [vnEq, resolveOther]; split_ifs <;> simp_all

lemma vnLt_t4 : vnLt v (resolveOther (.tup (.t4 M m p s))) = true ↔
    v.major < M ∨ (v.major = M ∧ (v.minor < m ∨ (v.minor = m ∧
      (v.patch < p ∨ (v.patch = p ∧ v.suffix < s))))) := by
  rcases lt_trichotomy v.major M with h1|h1|h1 <;>
  rcases lt_trichotomy v.minor m with h2|h2|h2 <;>
  rcases lt_trichotomy v.patch p with h3|h3|h3 <;>
  simp only [vnLt, resolveOther] <;> split_ifs <;> simp_all <;> omega

lemma vnLe_t4 : vnLe v (resolveOther (.tup (.t4 M m p s))) = true ↔
    v.major < M ∨ (v.major = M ∧ (v.minor < m ∨ (v.minor = m ∧
      (v.patch < p ∨ (v.patch = p ∧ v.suffix ≤ s))))) := by
  rcases lt_trichotomy v.major M with h1|h1|h1 <;>
  rcases lt_trichotomy v.minor m with h2|h2|h2 <;>
  rcases lt_trichotomy v.patch p with h3|h3|h3 <;>
  simp only [vnLe, resolveOther] <;> split_ifs <;> simp_all <;> omega

lemma vnGt_t4 : vnGt v (resolveOther (.tup (.t4 M m p s))) = true ↔
    M < v.major ∨ (v.major = M ∧ (m < v.minor ∨ (v.minor = m ∧
      (p < v.patch ∨ (v.patch = p ∧ s < v.suffix))))) := by
  rcases lt_trichotomy v.major M with h1|h1|h1 <;>
  rcases lt_trichotomy v.minor m with h2|h2|h2 <;>
  rcases lt_trichotomy v.patch p with h3|h3|h3 <;>
  simp only [vnGt, resolveOther] <;> split_ifs <;> simp_all <;> omega

lemma vnGe_t4 : vnGe v (resolveOther (.tup (.t4 M m p s))) = true ↔
    M < v.major ∨ (v.major = M ∧ (m < v.minor ∨ (v.minor = m ∧
      (p < v.patch ∨ (v.patch = p ∧ s ≤ v.suffix))))) := by
  rcases lt_trichotomy v.major M with h1|h1|h1 <;>
  rcases lt_trichotomy v.minor m with h2|h2|h2 <;>
  rcases lt_trichotomy v.patch p with h3|h3|h3 <;>
  simp only [vnGe, resolveOther] <;> split_ifs <;> simp_all <;> omega

end VnLemmas

/-- C7: for every `VersionNumber` and every right-hand-side tuple of k
elements (1 ≤ k ≤ 4), the comparison operators `==`, `<`, `<=`, `>`,
`>=` compare only the first k components (lexicographically, all
components below that precision counting as equal), the suffix
participating only when k = 4; in particular `v == (M, m)` holds iff
`v.major = M` and `v.minor = m`, whatever `v.patch` and `v.suffix` are. -/
theorem C7_partial_precision_comparison
    (v : VersionNumber) (M m p : Int) (s : String) :
    (vnEq v (resolveOther (.tup (.t1 M))) = true ↔ v.major = M)
  ∧ (vnLt v (resolveOther (.tup (.t1 M))) = true ↔ v.major < M)
  ∧ (vnLe v (resolveOther (.tup (.t1 M))) = true ↔ v.major ≤ M)
  ∧ (vnGt v (resolveOther (.tup (.t1 M))) = true ↔ M < v.major)
  ∧ (vnGe v (resolveOther (.tup (.t1 M))) = true ↔ M ≤ v.major)
  ∧ (vnEq v (resolveOther (.tup (.t2 M m))) = true ↔ v.major = M ∧ v.minor = m)
  ∧ (vnLt v (resolveOther (.tup (.t2 M m))) = true ↔
      v.major < M ∨ (v.major = M ∧ v.minor < m))
  ∧ (vnLe v (resolveOther (.tup (.t2 M m))) = true ↔
      v.major < M ∨ (v.major = M ∧ v.minor ≤ m))
  ∧ (vnGt v (resolveOther (.tup (.t2 M m))) = true ↔
      M < v.major ∨ (v.major = M ∧ m < v.minor))
  ∧ (vnGe v (resolveOther (.tup (.t2 M m))) = true ↔
      M < v.major ∨ (v.major = M ∧ m ≤ v.minor))
  ∧ (vnEq v (resolveOther (.tup (.t3 M m p))) = true ↔
      v.major = M ∧ v.minor = m ∧ v.patch = p)
  ∧ (vnLt v (resolveOther (.tup (.t3 M m p))) = true ↔
      v.major < M ∨ (v.major = M ∧ (v.minor < m ∨ (v.minor = m ∧ v.patch < p))))
  ∧ (vnLe v (resolveOther (.tup (.t3 M m p))) = true ↔
      v.major < M ∨ (v.major = M ∧ (v.minor < m ∨ (v.minor = m ∧ v.patch ≤ p))))
  ∧ (vnGt v (resolveOther (.tup (.t3 M m p))) = true ↔
      M < v.major ∨ (v.major = M ∧ (m < v.minor ∨ (v.minor = m ∧ p < v.patch))))
  ∧ (vnGe v (resolveOther (.tup (.t3 M m p))) = true ↔
      M < v.major ∨ (v.major = M ∧ (m < v.minor ∨ (v.minor = m ∧ p ≤ v.patch))))
  ∧ (vnEq v (resolveOther (.tup (.t4 M m p s))) = true ↔
      v.major = M ∧ v.minor = m ∧ v.patch = p ∧ v.suffix = s)
  ∧ (vnLt v (resolveOther (.tup (.t4 M m p s))) = true ↔
      v.major < M ∨ (v.major = M ∧ (v.minor < m ∨ (v.minor = m ∧
        (v.patch < p ∨ (v.patch = p ∧ v.suffix < s))))))
  ∧ (vnLe v (resolveOther (.tup (.t4 M m p s))) = true ↔
      v.major < M ∨ (v.major = M ∧ (v.minor < m ∨ (v.minor = m ∧
        (v.patch < p ∨ (v.patch = p ∧ v.suffix ≤ s))))))
  ∧ (vnGt v (resolveOther (.tup (.t4 M m p s))) = true ↔
      M < v.major ∨ (v.major = M ∧ (m < v.minor ∨ (v.minor = m ∧
        (p < v.patch ∨ (v.patch = p ∧ s < v.suffix))))))
  ∧ (vnGe v (resolveOther (.tup (.t4 M m p s))) = true ↔
      M < v.major ∨ (v.major = M ∧ (m < v.minor ∨ (v.minor = m ∧
        (p < v.patch ∨ (v.patch = p ∧ s ≤ v.suffix)))))) :=
  ⟨vnEq_t1 v M, vnLt_t1 v M, vnLe_t1 v M, vnGt_t1 v M, vnGe_t1 v M,
   vnEq_t2 v M m, vnLt_t2 v M m, vnLe_t2 v M m, vnGt_t2 v M m, vnGe_t2 v M m,
   vnEq_t3 v M m p, vnLt_t3 v M m p, vnLe_t3 v M m p, vnGt_t3 v M m p,
   vnGe_t3 v M m p,
   vnEq_t4 v M m p s, vnLt_t4 v M m p s, vnLe_t4 v M m p s, vnGt_t4 v M m p s,
   vnGe_t4 v M m p s⟩

/-! ### Part.applies_to (parts.py) -/

/-- C10: when an exact version is specified, `Part.applies_to` is
exactly the partial-precision equality test against it and the
min/max bounds of the same template are ignored (they are arbitrary in
the left conjunct); when no exact version and no bounds are set,
`applies_to` holds for every version. -/
theorem C10_applies_to_exact_version_and_default
    (p : Part) (spec : VersionSpec) (v : VersionNumber) :
    (Part.applies_to { p with version := some spec } v = vnEq v (resolveOther spec))
  ∧ (Part.applies_to
      { p with version := none, min_version := none, max_version := none } v = true) :=
  ⟨rfl, rfl⟩

/-! ### Target predicates (platforms.py)

Lemmas describing the evaluation of `Architecture.is_targeted` on a
non-empty string predicate. -/

lemma pySplit_empty_pipe : (pySplit "" '|').length = 1 := by decide

lemma targetsFalsy_str_false {s : String} (h : s ≠ "") :
    targetsFalsy (.str s) = false := by
  simp [targetsFalsy, h]

/-- A predicate with at least one `|` becomes a list of names and
covers exactly when the target's platform name is a member. -/
lemma isTargeted_list (self : Architecture) (s : String)
    (h : 1 < (pySplit s '|').length) :
    isTargeted self (.str s) = .ok ((pySplit s '|').contains self.platformName) := by
  have hne : s ≠ "" := by
    intro h0; subst h0
    simp [pySplit_empty_pipe] at h
  have hlen : ((pySplit s '|').length == 1) = false := by
    simp only [beq_eq_false_iff_ne]
    omega
  simp only [isTargeted, targetsFalsy_str_false hne, Bool.false_eq_true,
    if_false, hlen]

/-- A predicate without `|` is handled by the three single-name
branches of `is_targeted`. -/
lemma isTargeted_single (self : Architecture) (s : String)
    (hne : s ≠ "") (h1 : (pySplit s '|').length = 1) :
    isTargeted self (.str s) =
      (if pyStartsWith s '!' then do
          let p ← platformPlatform (pyDrop1 s)
          Except.ok (self.platformName != p)
        else if pyContainsChar s '-' then do
          let a ← architectureArchitecture s
          Except.ok (self == a)
        else do
          let p ← platformPlatform s
          Except.ok (self.platformName == p)) := by
  have hlen : ((pySplit s '|').length == 1) = true := by simp [h1]
  simp only [isTargeted, targetsFalsy_str_false hne, Bool.false_eq_true,
    if_false, hlen, if_true]

/-- C3 (counterexample): the predicate "win-64|ios" is a '|'-separated
list in which the exact architecture name "win-64" appears, yet
evaluating it against the architecture win-64 yields not-covered — in
a list only platform names are consulted, refuting the claimed
"platform name or exact architecture name" rule. -/
theorem C3_counterexample :
    pySplit "win-64|ios" '|' = ["win-64", "ios"]
  ∧ (pySplit "win-64|ios" '|').contains "win-64" = true
  ∧ isTargeted ⟨"win-64", "win"⟩ (.str "win-64|ios") = .ok false :=
  ⟨rfl, rfl, rfl⟩

/-- C3 (amended): for every target predicate that is a '|'-separated
list of names and for every target architecture, the predicate covers
the target if and only if the target's platform name appears in the
list; a member that is an exact architecture name (or any other
non-platform name) never matches. -/
theorem C3_pipe_list_covers_iff_platform_member (self : Architecture) (s : String)
    (h : 1 < (pySplit s '|').length) :
    isTargeted self (.str s) = .ok ((pySplit s '|').contains self.platformName) :=
  isTargeted_list self s h

/-- Witness for C3 (amended): the spec's own example "linux|macos"
evaluated at linux-64. -/
theorem C3_pipe_list_witness :
    1 < (pySplit "linux|macos" '|').length
  ∧ isTargeted ⟨"linux-64", "linux"⟩ (.str "linux|macos") =
      .ok ((pySplit "linux|macos" '|').contains "linux") :=
  ⟨by decide,
   C3_pipe_list_covers_iff_platform_member ⟨"linux-64", "linux"⟩ "linux|macos"
     (by decide)⟩

/-- C8 (counterexample): the '|'-separated predicate
"frobnicate|xyzzy" names only identifiers that are neither platforms
nor architectures, yet evaluating it raises no error: it silently
yields not-covered. -/
theorem C8_counterexample :
    allPlatformNames.contains "frobnicate" = false
  ∧ allPlatformNames.contains "xyzzy" = false
  ∧ allArchitectures.find?
      (fun a => a.name == "frobnicate" || a.platformName == "frobnicate") = none
  ∧ allArchitectures.find?
      (fun a => a.name == "xyzzy" || a.platformName == "xyzzy") = none
  ∧ isTargeted ⟨"linux-64", "linux"⟩ (.str "frobnicate|xyzzy") = .ok false :=
  ⟨rfl, rfl, rfl, rfl, rfl⟩

/-- C8 (amended): a single-name predicate — bare, with a leading '!',
or containing '-' — that names an unknown platform or architecture
raises a fatal error; but the members of a '|'-separated list are
never validated: the list silently evaluates to whether the target's
platform name is a member. -/
theorem C8_unknown_name_validation (self : Architecture) (s : String) :
    ((pySplit s '|').length = 1 → pyStartsWith s '!' = true →
      allPlatformNames.contains (pyDrop1 s) = false →
      isTargeted self (.str s) =
        .error ("'" ++ pyDrop1 s ++ "' is not a supported platform"))
  ∧ ((pySplit s '|').length = 1 → s ≠ "" → pyStartsWith s '!' = false →
      pyContainsChar s '-' = true →
      allArchitectures.find? (fun a => a.name == s || a.platformName == s) = none →
      isTargeted self (.str s) =
        .error ("'" ++ s ++ "' is not a supported architecture"))
  ∧ ((pySplit s '|').length = 1 → s ≠ "" → pyStartsWith s '!' = false →
      pyContainsChar s '-' = false →
      allPlatformNames.contains s = false →
      isTargeted self (.str s) =
        .error ("'" ++ s ++ "' is not a supported platform"))
  ∧ (1 < (pySplit s '|').length →
      isTargeted self (.str s) = .ok ((pySplit s '|').contains self.platformName)) := by
  refine ⟨?_, ?_, ?_, fun h => isTargeted_list self s h⟩
  · intro h1 hbang hplat
    have hne : s ≠ "" := by
      intro h0; subst h0; exact absurd hbang (by decide)
    rw [isTargeted_single self s hne h1]
    simp only [hbang, if_true, platformPlatform, hplat, Bool.false_eq_true,
      if_false]
    rfl
  · intro h1 hne hbang hdash harch
    rw [isTargeted_single self s hne h1]
    simp only [hbang, Bool.false_eq_true, if_false, hdash, if_true,
      architectureArchitecture, harch]
    rfl
  · intro h1 hne hbang hdash hplat
    rw [isTargeted_single self s hne h1]
    simp only [hbang, Bool.false_eq_true, if_false, hdash, if_true,
      platformPlatform, hplat]
    rfl

/-- Witness for C8 (amended): the unknown names "!foo", "foo-bar",
"foo" and the list "a|b" at linux-64. -/
theorem C8_unknown_name_validation_witness :
    isTargeted ⟨"linux-64", "linux"⟩ (.str "!foo") =
      .error "'foo' is not a supported platform"
  ∧ isTargeted ⟨"linux-64", "linux"⟩ (.str "foo-bar") =
      .error "'foo-bar' is not a supported architecture"
  ∧ isTargeted ⟨"linux-64", "linux"⟩ (.str "foo") =
      .error "'foo' is not a supported platform"
  ∧ isTargeted ⟨"linux-64", "linux"⟩ (.str "a|b") = .ok false :=
  ⟨(C8_unknown_name_validation ⟨"linux-64", "linux"⟩ "!foo").1
      (by decide) (by decide) (by decide),
   (C8_unknown_name_validation ⟨"linux-64", "linux"⟩ "foo-bar").2.1
      (by decide) (by decide) (by decide) (by decide) (by decide),
   (C8_unknown_name_validation ⟨"linux-64", "linux"⟩ "foo").2.2.1
      (by decide) (by decide) (by decide) (by decide) (by decide),
   (C8_unknown_name_validation ⟨"linux-64", "linux"⟩ "a|b").2.2.2 (by decide)⟩

/-! ### Variant selection (Component._normalised_part) -/

/-- Selection takes the first variant, in declared order, whose
version range accepts the component's version (`List.find?`); only
then is the target examined, and failure there never falls through to
a later variant. -/
lemma normalisedPart_eq_find (selfName : String) (version : VersionNumber)
    (target : Architecture) (unscopedName : String) (versions : List Part) :
    normalisedPart selfName version target unscopedName versions =
      (match versions.find? (fun p => p.applies_to version) with
      | none => .ok none
      | some part =>
          if part.target != "" then do
            let covered ← isTargeted target (.str part.target)
            if covered then do
              let p ← normalisePartValue selfName target unscopedName part
              Except.ok (some p)
            else Except.ok none
          else do
            let p ← normalisePartValue selfName target unscopedName part
            Except.ok (some p)) := by
  induction versions with
  | nil => rfl
  | cons part rest ih =>
      by_cases h : part.applies_to version
      · simp only [normalisedPart, h, List.find?_cons_of_pos, if_true]
      · simp only [normalisedPart, h, Bool.false_eq_true, if_false, ih,
          List.find?_cons_of_neg, not_false_iff]

/-- C5: variant selection returns the first variant in declared order
whose version range accepts the provider's resolved version
(first-match via `List.find?`, never best-match); with the variants
`[v <= 5 → A, v >= 6 → B]` resolving at version 5 selects A and at
version 6 selects B; and when no variant's version range accepts the
version the part is unavailable. -/
theorem C5_first_match_variant_selection :
    (∀ (selfName : String) (version : VersionNumber) (target : Architecture)
        (unscopedName : String) (versions : List Part),
      normalisedPart selfName version target unscopedName versions =
        (match versions.find? (fun p => p.applies_to version) with
        | none => .ok none
        | some part =>
            if part.target != "" then do
              let covered ← isTargeted target (.str part.target)
              if covered then do
                let p ← normalisePartValue selfName target unscopedName part
                Except.ok (some p)
              else Except.ok none
            else do
              let p ← normalisePartValue selfName target unscopedName part
              Except.ok (some p)))
  ∧ normalisedPart "V" { major := 5 } linux64 "p" [varA, varB] =
      .ok (some { varA with name := some "V:p" })
  ∧ normalisedPart "V" { major := 6 } linux64 "p" [varA, varB] =
      .ok (some { varB with name := some "V:p" })
  ∧ normalisedPart "V" { major := 4 } linux64 "p" [varE1, varE2] = .ok none :=
  ⟨normalisedPart_eq_find, rfl, rfl, rfl⟩

/-- C6: when the first variant whose version range accepts the
provider version names a target that does not cover the current one,
the part is unavailable — selection does not fall through to the later
variant even though it matches both the version and the target. -/
theorem C6_target_mismatch_no_fallthrough :
    varT1.applies_to { major := 1 } = true
  ∧ isTargeted linux64 (.str varT1.target) = .ok false
  ∧ varT2.applies_to { major := 1 } = true
  ∧ isTargeted linux64 (.str varT2.target) = .ok true
  ∧ normalisedPart "T" { major := 1 } linux64 "p" [varT1, varT2] = .ok none :=
  ⟨rfl, rfl, rfl, rfl, rfl⟩

/-! ### Per-component resolution scenarios (Component.parts) -/

/-- C4: with the memo written before the dependencies are visited, the
genuine mutual cycle a requires b requires a (both otherwise
resolvable) resolves both parts as available, each keeping its
dependency on the other. -/
theorem C4_mutual_cycle_both_available :
    componentParts sysCyc 40 compCyc =
      .ok [("C:a", { partCycA with deps := ["C:b"], name := some "C:a" }),
           ("C:b", { partCycB with deps := ["C:a"], name := some "C:b" })] := rfl

/-- C1 (counterexample): with the optional dependency written
literally as the spec's grammar prescribes, marker before the
component scope (`?B:partZ`), resolving `partX` for target linux
yields unavailable (the marker is not recognised there, so the dep is
treated as required on the unknown provider "?B") — not available as
the claim states, even though B:partY itself is available. -/
theorem C1_counterexample :
    componentParts sysLinuxLit 40 compB =
      .ok [("B:partY", { partY with name := some "B:partY" })]
  ∧ componentParts sysLinuxLit 40 compALit = .ok [] :=
  ⟨rfl, rfl⟩

/-- C1 (amended): with the optional marker written where `_add_part`
reads it, after the component scope (`B:?partZ`): resolving `partX`
for target win yields unavailable; for target linux it yields `partX`
available with normalized dependency list exactly `[B:partY]`, the
optional `partZ` silently absent and no error raised. -/
theorem C1_end_to_end_resolution :
    componentParts sysWin 40 compA = .ok []
  ∧ componentParts sysLinux 40 compA =
      .ok [("A:partX", { partX with deps := ["B:partY"], name := some "A:partX" })] :=
  ⟨rfl, rfl⟩

/-! ### Project build set (Builder._add_project_part) -/

/-- C2: the part `P:x` declares `hidden_deps = [P:big]` and no plain
deps, and `P:sub` is reachable only through `P:big`'s own declared
dependencies; yet the final build set contains `P:sub` — the builder
recurses into hidden dependencies exactly as into plain ones, contrary
to the claim (and to the `hidden_deps` comment in parts.py). -/
theorem C2_hidden_deps_are_expanded :
    xPart.hidden_deps = ["P:big"]
  ∧ xPart.deps = ([] : List String)
  ∧ bigPart.deps = ["P:sub"]
  ∧ addProjectParts ctxC2 40 ["P:x"] [] =
      .ok [("P:x", xPart), ("P:big", bigPart), ("P:sub", subPart)] :=
  ⟨rfl, rfl, rfl, rfl⟩


/-! ### The frame property of the heap model (C9) -/

lemma heapExt_refl (n : Nat) (h : Heap) : HeapExt n h h :=
  ⟨le_refl _, fun _ _ => rfl⟩

lemma heapExt_trans {n : Nat} {h1 h2 h3 : Heap}
    (a : HeapExt n h1 h2) (b : HeapExt n h2 h3) : HeapExt n h1 h3 :=
  ⟨le_trans a.1 b.1, fun i hi => (b.2 i hi).trans (a.2 i hi)⟩

lemma heapExt_alloc {n : Nat} {h : Heap} (p v : Part) (hn : n ≤ h.length) :
    HeapExt n h (hSet (h ++ [p]) h.length v) := by
  constructor
  · simp [hSet]
  · intro i hi
    rw [hSet, List.get?_eq_getElem?, List.get?_eq_getElem?,
      List.getElem?_set_ne (by omega), List.getElem?_append_left (by omega)]

lemma heapExt_set {n : Nat} {h : Heap} {i : Nat} (v : Part) (hn : n ≤ i) :
    HeapExt n h (hSet h i v) := by
  constructor
  · simp [hSet]
  · intro j hj
    rw [hSet, List.get?_eq_getElem?, List.get?_eq_getElem?,
      List.getElem?_set_ne (by omega)]

lemma heapExt_len {n : Nat} {h1 h2 : Heap} (a : HeapExt n h1 h2)
    (hn : n ≤ h1.length) : n ≤ h2.length := le_trans hn a.1

lemma exBind_ok {α β : Type} {x : Except String α} {f : α → Except String β} {b : β}
    (h : x >>= f = .ok b) : ∃ a, x = .ok a ∧ f a = .ok b := by
  cases x with
  | error e => simp [Bind.bind, Except.bind] at h
  | ok a => exact ⟨a, rfl, h⟩


lemma tblOk_dictSet {n : Nat} {tbl : HTable} (h1 : TblOk n tbl)
    {k : String} {v : Option Nat} (hv : ∀ a, v = some a → n ≤ a) :
    TblOk n (dictSet tbl k v) := by
  induction tbl with
  | nil =>
      intro e he a ha
      simp [dictSet] at he
      subst he
      exact hv a ha
  | cons kv rest ih =>
      intro e he a ha
      simp only [dictSet] at he
      by_cases hk : (kv.1 == k) = true
      · simp only [hk, if_true, List.mem_cons] at he
        rcases he with rfl | he
        · exact hv a ha
        · exact h1 e (List.mem_cons_of_mem _ he) a ha
      · simp only [hk, Bool.false_eq_true, if_false, List.mem_cons] at he
        rcases he with rfl | he
        · exact h1 ⟨kv.1, kv.2⟩ (by simp) a ha
        · exact ih (fun e he a ha => h1 e (List.mem_cons_of_mem _ he) a ha) e he a ha

lemma provOk_dictSet {n : Nat} {prov : List (String × Nat)} (h1 : ProvOk n prov)
    {k : String} {v : Nat} (hv : n ≤ v) :
    ProvOk n (dictSet prov k v) := by
  induction prov with
  | nil =>
      intro e he
      simp [dictSet] at he
      subst he
      exact hv
  | cons kv rest ih =>
      intro e he
      simp only [dictSet] at he
      by_cases hk : (kv.1 == k) = true
      · simp only [hk, if_true, List.mem_cons] at he
        rcases he with rfl | he
        · exact hv
        · exact h1 e (List.mem_cons_of_mem _ he)
      · simp only [hk, Bool.false_eq_true, if_false, List.mem_cons] at he
        rcases he with rfl | he
        · exact h1 ⟨kv.1, kv.2⟩ (by simp)
        · exact ih (fun e he => h1 e (List.mem_cons_of_mem _ he)) e he

lemma provOk_lookup {n : Nat} {prov : List (String × Nat)} (h1 : ProvOk n prov)
    {k : String} {v : Nat} (hl : prov.lookup k = some v) : n ≤ v := by
  induction prov with
  | nil => simp [List.lookup] at hl
  | cons kv rest ih =>
      rw [List.lookup] at hl
      by_cases hk : (k == kv.1) = true
      · simp only [hk, if_true, Option.some.injEq] at hl
        subst hl
        exact h1 kv (by simp)
      · simp only [hk, Bool.false_eq_true, if_false] at hl
        exact ih (fun e he => h1 e (List.mem_cons_of_mem _ he)) hl


lemma normalisedPartH_frame (ctx : HCtx) (selfName : String)
    (version : VersionNumber) (unscopedName : String) (n : Nat) :
    ∀ (addrs : List Nat) (h h2 : Heap) (r : Option Nat), n ≤ h.length →
      normalisedPartH ctx selfName version unscopedName h addrs = .ok (h2, r) →
      HeapExt n h h2 ∧ (∀ a, r = some a → n ≤ a) := by
  intro addrs
  induction addrs with
  | nil =>
      intro h h2 r hn hrun
      simp only [normalisedPartH, Except.ok.injEq, Prod.mk.injEq] at hrun
      obtain ⟨rfl, rfl⟩ := hrun
      exact ⟨heapExt_refl n h, by simp⟩
  | cons addr rest ih =>
      intro h h2 r hn hrun
      simp only [normalisedPartH] at hrun
      obtain ⟨part, hget, hrun⟩ := exBind_ok hrun
      by_cases happ : part.applies_to version = true
      · simp only [happ, if_true] at hrun
        by_cases htgt : (part.target != "") = true
        · simp only [htgt, if_true] at hrun
          obtain ⟨covered, hcov, hrun⟩ := exBind_ok hrun
          by_cases hc : covered = true
          · simp only [hc, if_true] at hrun
            obtain ⟨v, hv, hrun⟩ := exBind_ok hrun
            simp only [Except.ok.injEq, Prod.mk.injEq] at hrun
            obtain ⟨rfl, rfl⟩ := hrun
            refine ⟨heapExt_alloc part v hn, ?_⟩
            intro a ha
            cases ha
            exact hn
          · simp only [hc, Bool.false_eq_true, if_false, Except.ok.injEq,
              Prod.mk.injEq] at hrun
            obtain ⟨rfl, rfl⟩ := hrun
            exact ⟨heapExt_refl n h, by simp⟩
        · simp only [htgt, Bool.false_eq_true, if_false] at hrun
          obtain ⟨v, hv, hrun⟩ := exBind_ok hrun
          simp only [Except.ok.injEq, Prod.mk.injEq] at hrun
          obtain ⟨rfl, rfl⟩ := hrun
          refine ⟨heapExt_alloc part v hn, ?_⟩
          intro a ha
          cases ha
          exact hn
      · simp only [happ, Bool.false_eq_true, if_false] at hrun
        exact ih h h2 r hn hrun

lemma buildProvidesH_frame (ctx : HCtx) (selfName : String)
    (version : VersionNumber) (n : Nat) :
    ∀ (entries : List (String × List Nat)) (h h2 : Heap)
      (acc prov : List (String × Nat)), n ≤ h.length → ProvOk n acc →
      buildProvidesH ctx selfName version h acc entries = .ok (h2, prov) →
      HeapExt n h h2 ∧ ProvOk n prov := by
  intro entries
  induction entries with
  | nil =>
      intro h h2 acc prov hn hacc hrun
      simp only [buildProvidesH, Except.ok.injEq, Prod.mk.injEq] at hrun
      obtain ⟨rfl, rfl⟩ := hrun
      exact ⟨heapExt_refl n h, hacc⟩
  | cons entry rest ih =>
      intro h h2 acc prov hn hacc hrun
      rw [buildProvidesH] at hrun
      obtain ⟨⟨h1, r⟩, hnp, hrun⟩ := exBind_ok hrun
      obtain ⟨hext1, hr⟩ := normalisedPartH_frame ctx selfName version entry.1 n
        entry.2 h h1 r hn hnp
      match r with
      | some ca =>
          simp only at hrun
          obtain ⟨p, hget, hrun⟩ := exBind_ok hrun
          match hpn : p.name with
          | some nm =>
              rw [hpn] at hrun
              have := ih h1 h2 (dictSet acc nm ca) prov
                (heapExt_len hext1 hn)
                (provOk_dictSet hacc (hr ca rfl)) hrun
              exact ⟨heapExt_trans hext1 this.1, this.2⟩
          | none => rw [hpn] at hrun; exact absurd hrun (by simp)
      | none =>
          simp only at hrun
          have := ih h1 h2 acc prov (heapExt_len hext1 hn) hacc hrun
          exact ⟨heapExt_trans hext1 this.1, this.2⟩


set_option maxHeartbeats 1000000 in
lemma heap_resolution_frame (ctx : HCtx) (selfName : String) (n : Nat) :
    ∀ fuel : Nat,
      (∀ (provides : List (String × Nat)) (h : Heap) (tbl : HTable)
          (name : String) (addr : Nat) (h2 : Heap) (tbl2 : HTable),
        n ≤ h.length → ProvOk n provides → TblOk n tbl → n ≤ addr →
        addPartH ctx selfName provides fuel h tbl name addr = .ok (h2, tbl2) →
        HeapExt n h h2 ∧ TblOk n tbl2)
    ∧ (∀ (provides : List (String × Nat)) (h : Heap) (tbl : HTable)
          (deps updatedDeps : List String) (alive : Bool)
          (r : List String × Bool × Heap × HTable),
        n ≤ h.length → ProvOk n provides → TblOk n tbl →
        depsLoopH ctx selfName provides fuel h tbl deps updatedDeps alive = .ok r →
        HeapExt n h r.2.2.1 ∧ TblOk n r.2.2.2)
    ∧ (∀ (provides : List (String × Nat)) (h : Heap) (tbl : HTable)
          (rest updatedDeps : List String) (alive : Bool)
          (componentName depName : String) (required : Bool)
          (r : List String × Bool × Heap × HTable),
        n ≤ h.length → ProvOk n provides → TblOk n tbl →
        depStepH ctx selfName provides fuel h tbl rest updatedDeps alive
          componentName depName required = .ok r →
        HeapExt n h r.2.2.1 ∧ TblOk n r.2.2.2)
    ∧ (∀ (provides : List (String × Nat)) (h : Heap) (tbl : HTable)
          (entries : List (String × Nat)) (h2 : Heap) (tbl2 : HTable),
        n ≤ h.length → ProvOk n provides → TblOk n tbl → ProvOk n entries →
        addPartsH ctx selfName provides fuel h tbl entries = .ok (h2, tbl2) →
        HeapExt n h h2 ∧ TblOk n tbl2) := by
  intro fuel
  induction fuel with
  | zero =>
      refine ⟨?_, ?_, ?_, ?_⟩
      · intro _ _ _ _ _ _ _ _ _ _ _ hrun
        exact absurd hrun (by simp [addPartH])
      · intro _ _ _ _ _ _ _ _ _ _ hrun
        exact absurd hrun (by simp [depsLoopH])
      · intro _ _ _ _ _ _ _ _ _ _ _ _ _ hrun
        exact absurd hrun (by simp [depStepH])
      · intro _ _ _ _ _ _ _ _ _ _ hrun
        exact absurd hrun (by simp [addPartsH])
  | succ fuel ih =>
      obtain ⟨ihAdd, ihLoop, ihStep, ihAll⟩ := ih
      refine ⟨?_, ?_, ?_, ?_⟩
      -- addPartH
      · intro provides h tbl name addr h2 tbl2 hn hprov htbl haddr hrun
        rw [addPartH] at hrun
        by_cases hmem : (tbl.lookup name).isSome = true
        · simp only [hmem, if_true, Except.ok.injEq, Prod.mk.injEq] at hrun
          obtain ⟨rfl, rfl⟩ := hrun
          exact ⟨heapExt_refl n h, htbl⟩
        · simp only [hmem, Bool.false_eq_true, if_false] at hrun
          obtain ⟨part, hget, hrun⟩ := exBind_ok hrun
          obtain ⟨⟨updatedDeps, alive, hmid, tblmid⟩, hdeps, hrun⟩ := exBind_ok hrun
          have hstep := ihLoop provides h (dictSet tbl name (some addr))
            part.deps [] true ⟨updatedDeps, alive, hmid, tblmid⟩ hn hprov
            (tblOk_dictSet htbl (fun a ha => by cases ha; exact haddr)) hdeps
        
          obtain ⟨hext1, htbl1⟩ := hstep
          match alive with
          | true =>
              simp only at hrun
              obtain ⟨part2, hget2, hrun⟩ := exBind_ok hrun
              simp only [Except.ok.injEq, Prod.mk.injEq] at hrun
              obtain ⟨rfl, rfl⟩ := hrun
              refine ⟨heapExt_trans hext1 (heapExt_set _ haddr), ?_⟩
              exact tblOk_dictSet htbl1 (fun a ha => by cases ha; exact haddr)
          | false =>
              simp only [Except.ok.injEq, Prod.mk.injEq] at hrun
              obtain ⟨rfl, rfl⟩ := hrun
              refine ⟨hext1, ?_⟩
              exact tblOk_dictSet htbl1 (fun a ha => by cases ha)
      -- depsLoopH
      · intro provides h tbl deps updatedDeps alive r hn hprov htbl hrun
        rw [depsLoopH.eq_def] at hrun
        simp only at hrun
        match deps with
        | [] =>
            simp only [Except.ok.injEq] at hrun
            subst hrun
            exact ⟨heapExt_refl n h, htbl⟩
        | depName0 :: rest =>
            simp only at hrun
            match hsp : splitFirst depName0 ':' with
            | none => rw [hsp] at hrun; exact absurd hrun (by simp)
            | some (componentName, partName) =>
                rw [hsp] at hrun
                by_cases hq : pyStartsWith partName '?' = true
                · simp only [hq, if_true] at hrun
                  exact ihStep provides h tbl rest updatedDeps alive componentName
                    (getName componentName (pyDrop1 partName)) false r hn hprov htbl hrun
                · simp only [hq, Bool.false_eq_true, if_false] at hrun
                  by_cases hb : pyStartsWith partName '!' = true
                  · simp only [hb, if_true] at hrun
                    by_cases ho : ctx.opensslPresent = true
                    · simp only [ho, if_true] at hrun
                      exact ihLoop provides h tbl rest updatedDeps alive r hn hprov htbl hrun
                    · simp only [ho, Bool.false_eq_true, if_false] at hrun
                      exact ihStep provides h tbl rest updatedDeps alive componentName
                        (getName componentName (pyDrop1 partName)) true r hn hprov htbl hrun
                  · simp only [hb, Bool.false_eq_true, if_false] at hrun
                    exact ihStep provides h tbl rest updatedDeps alive componentName
                      depName0 true r hn hprov htbl hrun
      -- depStepH
      · intro provides h tbl rest updatedDeps alive componentName depName required r
          hn hprov htbl hrun
        rw [depStepH] at hrun
        by_cases hsc : (selfName == componentName) = true
        · simp only [hsc, if_true] at hrun
          match hlk : provides.lookup depName with
          | none =>
              rw [hlk] at hrun
              simp only at hrun
              match required with
              | true =>
                  rw [if_pos rfl] at hrun
                  simp only [Except.ok.injEq] at hrun
                  subst hrun
                  exact ⟨heapExt_refl n h, htbl⟩
              | false =>
                  rw [if_neg (by simp)] at hrun
                  exact ihLoop provides h tbl rest updatedDeps alive r hn hprov htbl hrun
          | some depAddr =>
              rw [hlk] at hrun
              simp only at hrun
              obtain ⟨⟨hmid, tblmid⟩, hadd, hrun⟩ := exBind_ok hrun
              obtain ⟨hext1, htbl1⟩ := ihAdd provides h tbl depName depAddr hmid tblmid
                hn hprov htbl (provOk_lookup hprov hlk) hadd
              match hlk2 : tblmid.lookup depName with
              | some none =>
                  rw [hlk2] at hrun
                  simp only at hrun
                  match required with
                  | true =>
                      rw [if_pos rfl] at hrun
                      simp only [Except.ok.injEq] at hrun
                      subst hrun
                      exact ⟨hext1, htbl1⟩
                  | false =>
                      rw [if_neg (by simp)] at hrun
                      have := ihLoop provides hmid tblmid rest updatedDeps alive r
                        (heapExt_len hext1 hn) hprov htbl1 hrun
                      exact ⟨heapExt_trans hext1 this.1, this.2⟩
              | some (some a) =>
                  rw [hlk2] at hrun
                  have := ihLoop provides hmid tblmid rest (updatedDeps ++ [depName])
                    alive r (heapExt_len hext1 hn) hprov htbl1 hrun
                  exact ⟨heapExt_trans hext1 this.1, this.2⟩
              | none =>
                  rw [hlk2] at hrun
                  exact absurd hrun (by simp)
        · simp only [hsc, Bool.false_eq_true, if_false] at hrun
          match hlk : ctx.othersParts.lookup componentName with
          | none =>
              rw [hlk] at hrun
              exact ihLoop provides h tbl rest updatedDeps _ r hn hprov htbl hrun
          | some names =>
              rw [hlk] at hrun
              simp only at hrun
              by_cases hc : names.contains depName = true
              · simp only [hc, if_true] at hrun
                exact ihLoop provides h tbl rest (updatedDeps ++ [depName]) alive r
                  hn hprov htbl hrun
              · simp only [hc, Bool.false_eq_true, if_false] at hrun
                exact ihLoop provides h tbl rest updatedDeps _ r hn hprov htbl hrun
      -- addPartsH
      · intro provides h tbl entries h2 tbl2 hn hprov htbl hent hrun
        match entries with
        | [] =>
            rw [addPartsH] at hrun
            simp only [Except.ok.injEq, Prod.mk.injEq] at hrun
            obtain ⟨rfl, rfl⟩ := hrun
            exact ⟨heapExt_refl n h, htbl⟩
        | (name, addr) :: rest =>
            rw [addPartsH] at hrun
            obtain ⟨⟨hmid, tblmid⟩, hadd, hrun⟩ := exBind_ok hrun
            obtain ⟨hext1, htbl1⟩ := ihAdd provides h tbl name addr hmid tblmid
              hn hprov htbl (hent ⟨name, addr⟩ (by simp)) hadd
            have := ihAll provides hmid tblmid rest h2 tbl2
              (heapExt_len hext1 hn) hprov htbl1
              (fun e he => hent e (List.mem_cons_of_mem _ he)) hrun
            exact ⟨heapExt_trans hext1 this.1, this.2⟩


lemma partsH_frame (ctx : HCtx) (c : HComponent) (fuel : Nat) (h0 h1 : Heap)
    (tbl : List (String × Nat)) (hrun : partsH ctx c fuel h0 = .ok (h1, tbl)) :
    HeapExt h0.length h0 h1 ∧ ∀ e ∈ tbl, h0.length ≤ e.2 := by
  rw [partsH] at hrun
  obtain ⟨⟨hmid, provides⟩, hbp, hrun⟩ := exBind_ok hrun
  obtain ⟨hext1, hprov⟩ := buildProvidesH_frame ctx c.name c.version h0.length
    c.provides h0 hmid [] provides (le_refl _) (by intro e he; simp at he) hbp
  obtain ⟨⟨hfin, tblfin⟩, hap, hrun⟩ := exBind_ok hrun
  obtain ⟨hext2, htbl2⟩ := (heap_resolution_frame ctx c.name h0.length fuel).2.2.2
    provides hmid [] provides hfin tblfin (heapExt_len hext1 (le_refl _)) hprov
    (by intro e he; simp at he) hprov hap
  simp only [Except.ok.injEq, Prod.mk.injEq] at hrun
  obtain ⟨rfl, rfl⟩ := hrun
  refine ⟨heapExt_trans hext1 hext2, ?_⟩
  intro e he
  rw [List.mem_filterMap] at he
  obtain ⟨a, ha, hfa⟩ := he
  rw [Option.map_eq_some'] at hfa
  obtain ⟨v, hv, rfl⟩ := hfa
  exact htbl2 a ha v hv

lemma heapExt_take {h h2 : Heap} (he : HeapExt h.length h h2) :
    h2.take h.length = h := by
  apply List.ext_getElem?
  intro i
  rw [List.getElem?_take]
  by_cases hi : i < h.length
  · rw [if_pos hi, ← List.get?_eq_getElem?, ← List.get?_eq_getElem?, he.2 i hi]
  · rw [if_neg hi]
    exact (List.getElem?_eq_none (Nat.le_of_not_lt hi)).symm


/-- C9: resolving a provider's parts never mutates the declarative
template metadata: the template region of the heap is unchanged after
resolution (every template object, all fields included), every
resolved part of the final table lives at a fresh address beyond the
templates (it is a copy, never an alias of a template), and re-running
the resolution on the templates left by the first run yields the
identical result. -/
theorem C9_resolution_never_mutates_templates
    (ctx : HCtx) (c : HComponent) (fuel : Nat) (h0 h1 : Heap)
    (tbl : List (String × Nat)) (hrun : partsH ctx c fuel h0 = .ok (h1, tbl)) :
    h1.take h0.length = h0
  ∧ h0.length ≤ h1.length
  ∧ (∀ e ∈ tbl, h0.length ≤ e.2)
  ∧ partsH ctx c fuel (h1.take h0.length) = .ok (h1, tbl) := by
  obtain ⟨hext, htbl⟩ := partsH_frame ctx c fuel h0 h1 tbl hrun
  have htake := heapExt_take hext
  exact ⟨htake, hext.1, htbl, by rw [htake]; exact hrun⟩

/-- Witness for C9: the concrete one-template session, with the
resolution evaluated by `rfl` to discharge the hypothesis. -/
theorem C9_resolution_never_mutates_templates_witness :
    [tmplPart, resolvedP9].take 1 = [tmplPart]
  ∧ 1 ≤ 2
  ∧ (∀ e ∈ [("H:p", 1)], 1 ≤ e.2)
  ∧ partsH ctxH9 compH9 20 ([tmplPart, resolvedP9].take 1) =
      .ok ([tmplPart, resolvedP9], [("H:p", 1)]) :=
  C9_resolution_never_mutates_templates ctxH9 compH9 20 [tmplPart]
    [tmplPart, resolvedP9] [("H:p", 1)] rfl

end Pyqtdeploy
